import Mathlib

/-!
Verification development for the project-planning repository
(`ProjectPlanning.py`).  The Python classes `Projects` and
`Projects_Planner` are shallowly embedded: pure numeric code becomes
functions over `ℤ`, the mutable planner state becomes an explicit
`State` record threaded through the operations, and code paths that can
raise a Python exception return `Option`/`Except` values.

Modelling conventions, stated once here and referenced below:
* Project identifiers: the source keys the catalog dictionary by project
  name strings and keeps `projects_names` in the dictionary insertion
  order; we use natural-number identifiers for the keys and keep the
  catalog as an association list in that same order.
* Floating point: production values and time ordinals are modelled as
  integers `ℤ` (the source computes with floats, but every operation the
  verified claims touch — indexing, lengths, comparisons, sums,
  differences — restricts to integer-valued data, and the numerical
  integrator is abstracted; see `Cfg.integrator`).
* `matplotlib.dates` calendar conversion (`num2date`, `date2num`) is an
  external library; the planner configuration carries the derived
  `first_year` alongside `first_day` instead of recomputing it, and the
  execution log records the raw date ordinal instead of a date object.
* `scipy.integrate.quad` is an external numerical routine; the
  configuration carries an abstract integrator.  The only fact about
  `quad` used by any theorem below is that the integral over a
  zero-length interval is `0`, which `quad` returns exactly.
-/

namespace PlanningModel

/-- Python exceptions that the embedded code can raise. -/
inductive PyErr where
  | assertionError
  | indexError
  | nameError
  | valueError
  | keyError
  | loopFuelOut
deriving DecidableEq

/-- Python / NumPy sequence indexing: a negative index counts from the
end of the sequence; an index out of range is an `IndexError` (`none`). -/
def pyIdx (l : List α) (i : ℤ) : Option α :=
  let j := if i < 0 then i + l.length else i
  if 0 ≤ j then l.get? j.toNat else none

/-- `np.arange(a, b)` with unit step on integer bounds: the values
`a, a+1, ...` strictly below `b`. -/
def arangeZ (a b : ℤ) : List ℤ :=
  (List.range (b - a).toNat).map (fun k => a + (k : ℤ))

/-- Insert index `i` into an index list already sorted by the values of
`v`, after every index holding a value `≤ v[i]` (stable insertion). -/
def insertArg (v : List ℤ) (i : ℕ) : List ℕ → List ℕ
  | [] => [i]
  | j :: js => if v.getD j 0 ≤ v.getD i 0 then j :: insertArg v i js else i :: j :: js

/-- `np.argsort` (ascending).  NumPy does not promise a stable sort; we
fix the stable insertion sort, and every theorem that evaluates
`argsortQ` does so on pairwise-distinct values, where all correct
argsorts agree. -/
def argsortQ (v : List ℤ) : List ℕ :=
  (List.range v.length).foldl (fun acc i => insertArg v i acc) []

/-- `np.unique` on integers: sorted ascending, duplicates removed. -/
def npUnique (l : List ℤ) : List ℤ :=
  List.insertionSort (· ≤ ·) l.dedup

/-- Python builtin `max` over a sequence; `ValueError` on an empty one. -/
def pyMax : List ℤ → Option ℤ
  | [] => none
  | x :: xs => some (xs.foldl max x)

/-- `np.delete(l, idxs)`: drop the elements at the listed positions,
keeping the relative order of the remaining elements. -/
def npDelete (l : List α) (idxs : List ℕ) : List α :=
  (l.enum.filter (fun q => !(decide (q.1 ∈ idxs)))).map Prod.snd

/-- Project identifier (see the modelling conventions above). -/
abbrev PName := ℕ

/-- One catalog record, as built by `dataframe_to_dictionary`: spud year,
drilling duration, non-zero production profile, the matching time
ordinals, and the fitted interpolation curve (an opaque callable handed
over by the external curve fitter). -/
structure Project where
  spud : ℤ
  drill : ℤ
  profile : List ℤ
  years : List ℤ
  curve : ℤ → ℤ

/-- Constructor-time configuration of `Projects_Planner`: the catalog (in
dictionary insertion order), the planning period, the portfolio start
ordinal `first_day` and the calendar year `first_year` derived from it by
`mdates.num2date`, the `min_year`/`max_year` window indices, and the
numerical integrator standing for `scipy.integrate.quad`. -/
structure Cfg where
  catalog : List (PName × Project)
  period : ℕ
  firstDay : ℤ
  firstYear : ℤ
  minYear : ℤ
  maxYear : ℤ
  integrator : (ℤ → ℤ) → ℤ → ℤ → ℤ

/-- `self.projects_names`. -/
def namesOf (cfg : Cfg) : List PName :=
  cfg.catalog.map Prod.fst

/-- Dictionary lookup `self.projects[nm]`. -/
def projOf (cfg : Cfg) (nm : PName) : Option Project :=
  List.lookup nm cfg.catalog

/-- The left rectangle rule: a concrete integrator used to instantiate
witnesses.  Like `quad`, it returns `0` on a zero-length interval. -/
def lrect (f : ℤ → ℤ) (a b : ℤ) : ℤ :=
  (b - a) * f a

/-- `projects_max_prod`, per project: the peak `profile[0]`
(`IndexError` on an empty profile). -/
def max_project_prod (cfg : Cfg) : Option (List ℤ) :=
  cfg.catalog.mapM (fun pr => pr.2.profile.head?)

/-- `projects_effective_prod`, per project: the curve sampled on
`np.arange(years[min_year], years[max_year])`. -/
def effective_prod (cfg : Cfg) (p : Project) : Option (List ℤ) := do
  let iy ← pyIdx p.years cfg.minYear
  let fy ← pyIdx p.years cfg.maxYear
  pure ((arangeZ iy fy).map p.curve)

/-- `self.projects[nm]['effective']`. -/
def effOf (cfg : Cfg) (nm : PName) : Option (List ℤ) :=
  (projOf cfg nm).bind (effective_prod cfg)

/-- `projects_total_prod`, per project: `quad(curve, years[min_year],
years[max_year])[0]`, abstracting `quad` by `cfg.integrator`. -/
def proj_total (cfg : Cfg) (p : Project) : Option ℤ := do
  let iy ← pyIdx p.years cfg.minYear
  let fy ← pyIdx p.years cfg.maxYear
  pure (cfg.integrator p.curve iy fy)

/-- The per-project totals, in catalog order. -/
def totalsOf (cfg : Cfg) : Option (List ℤ) :=
  cfg.catalog.mapM (fun pr => proj_total cfg pr.2)

/-- `projects_prod_diff`, absolute ordering:
`projects_names[argsort(max_project_prod)]`. -/
def order_projects_names_abs (cfg : Cfg) : Option (List PName) := do
  let peaks ← max_project_prod cfg
  (argsortQ peaks).mapM (fun i => (namesOf cfg).get? i)

/-- One step structure of the `minmax` branch of `search_first_project`
(lines 246-258): from Python loop counter `n` (starting at `-1` and
decremented), read `ind = max_project_prod_sort[n]`, then the candidate
`projects = order_projects_names_abs[ind]`, and accept it when its spud
year is `≤ first_year`.  `fuel` bounds the `while not found` loop; it is
started at the catalog size, beyond which the NumPy indexing itself
raises `IndexError` (`none`). -/
def minmax_first_loop (cfg : Cfg) (sortIdx : List ℕ) (orderAbs : List PName) :
    ℕ → ℤ → Option PName
  | 0, _ => none
  | fuel + 1, n => do
    let ind ← pyIdx sortIdx n
    let nm ← pyIdx orderAbs (ind : ℤ)
    let p ← projOf cfg nm
    if p.spud ≤ cfg.firstYear then some nm
    else minmax_first_loop cfg sortIdx orderAbs fuel (n - 1)

/-- The `minmax` branch of `search_first_project`: sort the peaks with
`argsort`, then walk `n = -1, -2, ...` through the double indexing
`order_projects_names_abs[max_project_prod_sort[n]]` until the spud-year
requirement holds.  Returns the selected project name. -/
def search_first_minmax (cfg : Cfg) : Option PName := do
  let peaks ← max_project_prod cfg
  let sortIdx := argsortQ peaks
  let orderAbs ← order_projects_names_abs cfg
  minmax_first_loop cfg sortIdx orderAbs sortIdx.length (-1)

/-- The `else` (random) branch of `search_first_project` (lines 260-267):
each iteration draws `n = np.random.choice(projects_length)` and accepts
`projects_names[n]` when its spud year is strictly below `first_year`.
The source loop is unbounded (`while not found:` with no other exit);
`fuel` counts iterations, `choice k` is the uniform draw made with `k`
units of fuel remaining (reduced modulo the catalog size), and `none`
means that no draw was accepted within `fuel` iterations. -/
def first_random_loop (cfg : Cfg) (choice : ℕ → ℕ) : ℕ → Option PName
  | 0 => none
  | fuel + 1 =>
    if cfg.catalog.length = 0 then none
    else
      match (namesOf cfg).get? (choice fuel % cfg.catalog.length) with
      | none => none
      | some nm =>
        match projOf cfg nm with
        | none => none
        | some p =>
          if p.spud < cfg.firstYear then some nm
          else first_random_loop cfg choice fuel

/-- The available (unused) projects:
`projects_names[~np.in1d(projects_names, used_projects)]`. -/
def left_projects (cfg : Cfg) (used : List PName) : List PName :=
  (namesOf cfg).filter (fun nm => !(used.contains nm))

/-- The local variable `year` read by the comparison
`self.projects[project]['spud'] <= year` in the `random` branch of
`search_next_project` (line 359).  No assignment to `year` exists in
that function or module scope, so the name lookup fails and CPython
raises `NameError`. -/
def yearVarLookup : Option ℤ := none

/-- The `random` branch of `search_next_project` (lines 352-361): draw
`n = np.random.choice(range(len(left_projects)))` (a `ValueError` when no
project is left), take `project = left_projects_name[n]`, then evaluate
`spud <= year` — which dereferences the unbound name `year`.  `fuel`
bounds the `while not found` loop as in `first_random_loop`. -/
def next_random_loop (cfg : Cfg) (left : List PName) (choice : ℕ → ℕ) :
    ℕ → Except PyErr PName
  | 0 => .error .loopFuelOut
  | fuel + 1 =>
    if left.length = 0 then .error .valueError
    else
      match left.get? (choice fuel % left.length) with
      | none => .error .indexError
      | some nm =>
        match yearVarLookup with
        | none => .error .nameError
        | some y =>
          match projOf cfg nm with
          | none => .error .keyError
          | some p =>
            if p.spud ≤ y then .ok nm
            else next_random_loop cfg left choice fuel

/-- `search_next_project` under the `random` policy, for a given set of
already-used projects and random stream. -/
def search_next_random (cfg : Cfg) (used : List PName) (choice : ℕ → ℕ)
    (fuel : ℕ) : Except PyErr PName :=
  next_random_loop cfg (left_projects cfg used) choice fuel

/-! ### Scheduling state and lifecycle operations -/

/-- The mutable planner state set up in `Projects_Planner.__init__`.
`active_projects` and `projects_first_day` are parallel arrays in the
source, always appended to and deleted from at the same positions; they
are modelled as the single list `active` of (name, first day) pairs.
`timeSeq` is `projects_time_sequence` (with raw date ordinals, see the
module conventions) and `callCnt` is the counter `self.call` driving the
`minmax` next-project alternation. -/
structure State where
  used : List PName
  active : List (PName × ℤ)
  timeSeq : List (ℤ × PName)
  callCnt : ℕ
deriving DecidableEq

/-- The state right after `__init__`: every operational list empty,
`self.call = 0`. -/
def initState : State := ⟨[], [], [], 0⟩

/-- `add_project_sequence`: append
`(first_day_ordinal + first_day - drill, project)` to
`projects_time_sequence`; the dictionary access raises `KeyError` for a
name missing from the catalog. -/
def add_project_sequence (cfg : Cfg) (project : PName) (firstDay : ℤ)
    (s : State) : State × Option PyErr :=
  match projOf cfg project with
  | none => (s, some .keyError)
  | some p =>
    ({ s with timeSeq := s.timeSeq ++ [(cfg.firstDay + firstDay - p.drill, project)] }, none)

/-- `add_projects`: for each project in order, assert that it is not yet
used (`AssertionError` otherwise), log it via `add_project_sequence`,
then append it to `used_projects`, `active_projects` and
`projects_first_day`.  On an exception the state mutated so far is kept,
as in the source, and returned beside the error. -/
def add_projects (cfg : Cfg) : List PName → ℤ → State → State × Option PyErr
  | [], _, s => (s, none)
  | project :: rest, firstDay, s =>
    if project ∈ s.used then (s, some .assertionError)
    else
      match add_project_sequence cfg project firstDay s with
      | (s1, some e) => (s1, some e)
      | (s1, none) =>
        let s2 := { s1 with
          used := s1.used ++ [project],
          active := s1.active ++ [(project, firstDay)] }
        add_projects cfg rest firstDay s2

/-- `clear_projects`: reset `used_projects`, `active_projects` and
`projects_first_day` (the latter two forming `active`) to empty. -/
def clear_projects (s : State) : State :=
  { s with used := [], active := [] }

/-- `remove_projects`: `np.delete` the given positions from the parallel
active arrays. -/
def remove_projects (s : State) (idxs : List ℕ) : State :=
  { s with active := npDelete s.active idxs }

/-- The indices collected by the loop of `update_simulatenous_projects`:
enumerate the active pairs and keep each position whose project verifies
`day - first_day == len(effective)`. -/
def removal_idxs (cfg : Cfg) (day : ℤ) : List (ℕ × (PName × ℤ)) → Option (List ℕ)
  | [] => some []
  | (p, q) :: rest => do
    let eff ← effOf cfg q.1
    let tail ← removal_idxs cfg day rest
    if day - q.2 = (eff.length : ℤ) then pure (p :: tail) else pure tail

/-- `update_simulatenous_projects` (source spelling): collect the
exhausted positions, then delete them from the active arrays in one
`np.delete` call. -/
def update_simulatenous (cfg : Cfg) (day : ℤ) (active : List (PName × ℤ)) :
    Option (List (PName × ℤ)) := do
  let idxs ← removal_idxs cfg day active.enum
  pure (npDelete active idxs)

/-- Whether an active pair is exhausted on `day`:
`day - first_day == len(effective)`. -/
def curveExhausted (cfg : Cfg) (day : ℤ) (q : PName × ℤ) : Bool :=
  match effOf cfg q.1 with
  | none => false
  | some eff => decide (day - q.2 = (eff.length : ℤ))

/-- `update_simulatenous_projects` applied on consecutive days
`d, d + 1, ..., d + k - 1`, as the simulation does. -/
def iter_update (cfg : Cfg) : ℤ → ℕ → List (PName × ℤ) → Option (List (PName × ℤ))
  | _, 0, a => some a
  | d, k + 1, a => (update_simulatenous cfg d a).bind (iter_update cfg (d + 1) k)

/-- `project_production`: update the active lists for `day`, then sum
`effective[day - first_day]` over the active pairs (Python indexing). -/
def project_production (cfg : Cfg) (day : ℤ) (s : State) : Option (ℤ × State) := do
  let a2 ← update_simulatenous cfg day s.active
  let s2 := { s with active := a2 }
  let total ← a2.foldlM (fun acc q => do
      let eff ← effOf cfg q.1
      let v ← pyIdx eff (day - q.2)
      pure (acc + v)) (0 : ℤ)
  pure (total, s2)

/-- The planner states reachable from `__init__` through the lifecycle
methods, including the state left behind by a failed `add_projects`
call. -/
inductive Reach (cfg : Cfg) : State → Prop
  | init : Reach cfg initState
  | add (s : State) (l : List PName) (d : ℤ) :
      Reach cfg s → Reach cfg (add_projects cfg l d s).1
  | clear (s : State) : Reach cfg s → Reach cfg (clear_projects s)
  | remove (s : State) (idxs : List ℕ) :
      Reach cfg s → Reach cfg (remove_projects s idxs)
  | update (s : State) (day : ℤ) (a2 : List (PName × ℤ)) :
      Reach cfg s → update_simulatenous cfg day s.active = some a2 →
      Reach cfg { s with active := a2 }

/-! ### Lemmas about the active-list update -/

theorem enumFrom_fst_le {α : Type} (k : ℕ) (l : List α) :
    ∀ q ∈ List.enumFrom k l, k ≤ q.1 := by
  induction l generalizing k with
  | nil => intro q hq; simp [List.enumFrom] at hq
  | cons x t ih =>
    intro q hq
    have hq2 : q = (k, x) ∨ q ∈ List.enumFrom (k + 1) t := by
      simpa using hq
    rcases hq2 with rfl | hmem
    · exact Nat.le_refl k
    · exact Nat.le_of_succ_le (ih (k + 1) q hmem)

theorem removal_idxs_enumFrom (cfg : Cfg) (day : ℤ) (l : List (PName × ℤ)) (k : ℕ)
    (hall : ∀ q ∈ l, (effOf cfg q.1).isSome) :
    removal_idxs cfg day (List.enumFrom k l) =
      some (((List.enumFrom k l).filter
        (fun q => curveExhausted cfg day q.2)).map Prod.fst) := by
  induction l generalizing k with
  | nil => rfl
  | cons x t ih =>
    have hx : (effOf cfg x.1).isSome := hall x (by simp)
    rcases Option.isSome_iff_exists.mp hx with ⟨eff, heff⟩
    have ht := ih (k + 1) (fun q hq => hall q (by simp [hq]))
    show removal_idxs cfg day ((k, x) :: List.enumFrom (k + 1) t) = _
    by_cases hex : day - x.2 = (eff.length : ℤ) <;>
      simp [removal_idxs, heff, ht, hex, curveExhausted, List.filter_cons]

theorem enumFrom_delete_filter {α : Type} (exh : α → Bool) (l : List α) (k : ℕ) :
    ((List.enumFrom k l).filter
        (fun q => !(decide (q.1 ∈ ((List.enumFrom k l).filter
          (fun r => exh r.2)).map Prod.fst)))).map Prod.snd
      = l.filter (fun x => !(exh x)) := by
  induction l generalizing k with
  | nil => rfl
  | cons x t ih =>
    rw [show List.enumFrom k (x :: t) = (k, x) :: List.enumFrom (k + 1) t from rfl]
    have hbound : ∀ p ∈ (List.enumFrom (k + 1) t).filter (fun r => exh r.2),
        k + 1 ≤ p.1 := fun p hp => enumFrom_fst_le (k + 1) t p (List.mem_filter.mp hp).1
    have hknot : ¬ k ∈ ((List.enumFrom (k + 1) t).filter (fun r => exh r.2)).map Prod.fst := by
      intro hk
      rcases List.mem_map.mp hk with ⟨p, hp, hpk⟩
      have := hbound p hp
      omega
    by_cases hex : exh x = true
    · have h1 : ((k, x) :: List.enumFrom (k + 1) t).filter (fun r => exh r.2)
          = (k, x) :: (List.enumFrom (k + 1) t).filter (fun r => exh r.2) := by
        rw [List.filter_cons, if_pos (by simpa using hex)]
      rw [h1, List.map_cons, List.filter_cons]
      have hhead : (!(decide ((k, x).1
          ∈ k :: ((List.enumFrom (k + 1) t).filter (fun r => exh r.2)).map Prod.fst)))
            = false := by simp
      rw [hhead, if_neg (by simp)]
      rw [List.filter_congr (l := List.enumFrom (k + 1) t)
        (q := fun q => !(decide (q.1
          ∈ ((List.enumFrom (k + 1) t).filter (fun r => exh r.2)).map Prod.fst)))
        (by
          intro q hq
          have hq1 : k + 1 ≤ q.1 := enumFrom_fst_le (k + 1) t q hq
          have hne : ¬ q.1 = k := by omega
          simp [hne])]
      rw [ih (k + 1), List.filter_cons]
      rw [if_neg (by simp [hex])]
    · have hexf : exh x = false := Bool.eq_false_iff.mpr hex
      have h1 : ((k, x) :: List.enumFrom (k + 1) t).filter (fun r => exh r.2)
          = (List.enumFrom (k + 1) t).filter (fun r => exh r.2) := by
        rw [List.filter_cons, if_neg (by simp [hexf])]
      rw [h1, List.filter_cons]
      have hhead : (!(decide ((k, x).1
          ∈ ((List.enumFrom (k + 1) t).filter (fun r => exh r.2)).map Prod.fst)))
            = true := by simpa using hknot
      rw [hhead, if_pos rfl, List.map_cons, ih (k + 1), List.filter_cons]
      rw [if_pos (by simp [hexf])]

/-- On an active list whose names all resolve in the catalog, the update
succeeds and removes exactly the exhausted pairs, preserving the
relative order of the remaining pairs. -/
theorem update_simulatenous_eq_filter (cfg : Cfg) (day : ℤ)
    (active : List (PName × ℤ))
    (hall : ∀ q ∈ active, (effOf cfg q.1).isSome) :
    update_simulatenous cfg day active =
      some (active.filter (fun q => !(curveExhausted cfg day q))) := by
  unfold update_simulatenous npDelete
  show (removal_idxs cfg day (List.enumFrom 0 active)).bind _ = _
  rw [removal_idxs_enumFrom cfg day active 0 hall]
  exact congrArg some (enumFrom_delete_filter (curveExhausted cfg day) active 0)

theorem mem_iter_update (cfg : Cfg) (k : ℕ) (d : ℤ)
    (active out : List (PName × ℤ)) (q : PName × ℤ)
    (hall : ∀ r ∈ active, (effOf cfg r.1).isSome)
    (h : iter_update cfg d k active = some out) :
    q ∈ out ↔ q ∈ active ∧ ∀ j : ℕ, j < k → curveExhausted cfg (d + j) q = false := by
  induction k generalizing d active with
  | zero =>
    have hao : active = out := Option.some.inj h
    subst hao
    simp
  | succ k ih =>
    rw [show iter_update cfg d (k + 1) active
        = (update_simulatenous cfg d active).bind (iter_update cfg (d + 1) k) from rfl,
      update_simulatenous_eq_filter cfg d active hall] at h
    have hall2 : ∀ r ∈ active.filter (fun r => !(curveExhausted cfg d r)),
        (effOf cfg r.1).isSome := fun r hr => hall r (List.mem_filter.mp hr).1
    rw [ih (d + 1) _ hall2 h, List.mem_filter]
    constructor
    · rintro ⟨⟨hmem, hd⟩, hrest⟩
      refine ⟨hmem, ?_⟩
      intro j hj
      cases j with
      | zero => simpa using Bool.not_eq_true _ ▸ (by simpa using hd)
      | succ j =>
        have := hrest j (by omega)
        rw [show d + 1 + (j : ℤ) = d + ((j : ℕ) + 1 : ℕ) from by push_cast; ring] at this
        exact this
    · rintro ⟨hmem, hallj⟩
      refine ⟨⟨hmem, ?_⟩, ?_⟩
      · have := hallj 0 (by omega)
        simpa using this
      · intro j hj
        have := hallj (j + 1) (by omega)
        rw [show d + ((j : ℕ) + 1 : ℕ) = d + 1 + (j : ℤ) from by push_cast; ring] at this
        exact this

/-! ### The deterministic ordering algorithm `projects_ordering` -/

/-- `self.projects` spud years, in catalog order. -/
def spudsOf (cfg : Cfg) : List ℤ :=
  cfg.catalog.map (fun pr => pr.2.spud)

/-- `self.projects` drill durations, in catalog order. -/
def drillsOf (cfg : Cfg) : List ℤ :=
  cfg.catalog.map (fun pr => pr.2.drill)

/-- First half of `projects_ordering` (lines 386-419): the sequence of
`(-exec_day, index)` pairs for the projects with `spud < first_year`.
`before` are the early catalog indices, ordered by total production
descending; the duration groups are walked from longest to shortest
inside the day loop, and the inner `enumerate` assigns decreasing
offsets within a group.  `none` models the `ValueError` of
`max(unique_drills)` on an empty early group, and the `IndexError` of
`ind[0]` on an empty duration group. -/
def seq_before (cfg : Cfg) : Option (List (ℤ × ℕ)) := do
  let totals ← totalsOf cfg
  let spuds := spudsOf cfg
  let drills := drillsOf cfg
  let idxs := List.range cfg.catalog.length
  let before := idxs.filter (fun i => decide (spuds.getD i 0 < cfg.firstYear))
  let totalsBefore := before.map (fun i => totals.getD i 0)
  let drillBefore := before.map (fun i => drills.getD i 0)
  let order := (argsortQ totalsBefore).reverse
  let idxsOrder := order.map (fun j => before.getD j 0)
  let drillOrder := order.map (fun j => drillBefore.getD j 0)
  let uniqueDrills := npUnique drillOrder
  let daysBefore ← pyMax uniqueDrills
  let groups := uniqueDrills.reverse.map (fun dr =>
    ((List.range drillOrder.length).filter
      (fun j => decide (drillOrder.getD j 0 = dr))).map (fun j => idxsOrder.getD j 0))
  let parts ← (List.range daysBefore.toNat).mapM (fun day =>
    (groups.mapM (fun (ind : List ℕ) => do
      let i0 ← ind.head?
      if daysBefore - (day : ℤ) = drills.getD i0 0 then
        pure ((List.range ind.length).map
          (fun (dd : ℕ) => (-(daysBefore - (day : ℤ) - (dd : ℤ)), ind.getD dd 0)))
      else
        pure ([] : List (ℤ × ℕ)))).map List.flatten)
  pure parts.flatten

/-- Second half of `projects_ordering` (lines 421-449): the late projects
(`spud ≥ first_year`), ordered by total production descending then
grouped by drill duration descending, flattened by `np.hstack` and paired
with the offsets `0, 1, 2, ...`.  `np.hstack([])` raises `ValueError`
(`none`) when the late group is empty. -/
def seq_after (cfg : Cfg) : Option (List (ℤ × ℕ)) := do
  let totals ← totalsOf cfg
  let spuds := spudsOf cfg
  let drills := drillsOf cfg
  let idxs := List.range cfg.catalog.length
  let after := idxs.filter (fun i => decide (cfg.firstYear ≤ spuds.getD i 0))
  let totalsAfter := after.map (fun i => totals.getD i 0)
  let drillAfter := after.map (fun i => drills.getD i 0)
  let newOrder := (argsortQ totalsAfter).reverse
  let idxsNewOrder := newOrder.map (fun j => after.getD j 0)
  let drillNewOrder := newOrder.map (fun j => drillAfter.getD j 0)
  let groups := (npUnique drillNewOrder).reverse.map (fun dr =>
    ((List.range drillNewOrder.length).filter
      (fun j => decide (drillNewOrder.getD j 0 = dr))).map (fun j => idxsNewOrder.getD j 0))
  if groups.isEmpty then none
  else
    let flat := groups.flatten
    let daysAfter := drillNewOrder.length
    (List.range daysAfter).mapM (fun d => (flat.get? d).map (fun ii => ((d : ℤ), ii)))

/-- `projects_ordering`: the combined
`[*proj_sequence_before, *proj_sequence_after]` assigned to
`self.projects_sequence`, or the exception that interrupts it. -/
def projects_ordering (cfg : Cfg) : Option (List (ℤ × ℕ)) := do
  let b ← seq_before cfg
  let a ← seq_after cfg
  pure (b ++ a)

/-! ### The full run `Projects_Planner.__call__` -/

/-- The first loop of `__call__` (lines 559-562): walk
`projects_sequence` and add every negative-offset entry at simulated day
0, counting them in `n`.  An exception anywhere aborts the run
(`none`). -/
def initial_adds (cfg : Cfg) (seq : List (ℤ × ℕ)) : Option (ℕ × State) :=
  seq.foldlM (fun (acc : ℕ × State) (e : ℤ × ℕ) =>
    if e.1 < 0 then
      match (namesOf cfg).get? e.2 with
      | none => none
      | some nm =>
        match add_projects cfg [nm] 0 acc.2 with
        | (_, some _) => none
        | (s2, none) => some (acc.1 + 1, s2)
    else some acc) (0, initState)

/-- The daily loop of `__call__` (lines 567-574) over the remaining days:
while `n < projects_length`, add the `n`-th planned entry at the current
day, then compute and append the daily production.  Produces one output
value per day; an exception aborts the run. -/
def run_loop (cfg : Cfg) (seq : List (ℤ × ℕ)) :
    List ℤ → ℕ → State → Option (List ℤ)
  | [], _, _ => some []
  | day :: rest, n, s => do
    let (n2, s2) ←
      (if n < cfg.catalog.length then
        match seq.get? n with
        | none => none
        | some e =>
          match (namesOf cfg).get? e.2 with
          | none => none
          | some nm =>
            match add_projects cfg [nm] day s with
            | (_, some _) => none
            | (s3, none) => some (n + 1, s3)
      else some (n, s))
    let (p, s4) ← project_production cfg day s2
    let ps ← run_loop cfg seq rest n2 s4
    pure (p :: ps)

/-- `Projects_Planner.__call__`: compute `projects_ordering`, add the
negative-offset entries at day 0, record the day-0 production, then run
the daily loop over `np.arange(period)[1:]`.  Returns the production
sequence of the run, or `none` when an exception interrupts it. -/
def planner_run (cfg : Cfg) : Option (List ℤ) := do
  let seq ← projects_ordering cfg
  let (n0, s0) ← initial_adds cfg seq
  let (p0, s1) ← project_production cfg 0 s0
  let ps ← run_loop cfg seq (((List.range cfg.period).drop 1).map Int.ofNat) n0 s1
  pure (p0 :: ps)

/-- `add_projects` keeps `used_projects` duplicate-free: each appended
project passes the `project not in self.used_projects` assertion first,
whether or not the call as a whole succeeds. -/
theorem add_projects_used_nodup (cfg : Cfg) (l : List PName) (d : ℤ) (s : State)
    (h : s.used.Nodup) : ((add_projects cfg l d s).1).used.Nodup := by
  induction l generalizing s with
  | nil => exact h
  | cons p rest ih =>
    by_cases hp : p ∈ s.used
    · simpa [add_projects, hp] using h
    · rcases hpo : projOf cfg p with _ | pr
      · simpa [add_projects, hp, add_project_sequence, hpo] using h
      · simp only [add_projects, if_neg hp, add_project_sequence, hpo]
        exact ih _ (by simp [List.nodup_append, h, hp])

/-! Concrete catalogs used as failing inputs and witnesses. -/

/-- Peak 5, feasible by year 2000. -/
def projPeak5 : Project := ⟨1999, 1, [5], [0, 2], fun _ => 5⟩

/-- Peak 10, feasible by year 2000. -/
def projPeak10 : Project := ⟨1999, 1, [10], [0, 2], fun _ => 10⟩

/-- Peak 1, feasible by year 2000. -/
def projPeak1 : Project := ⟨1999, 1, [1], [0, 2], fun _ => 1⟩

/-- Failing input for the `minmax` first-project search: projects 10, 11,
12 with peaks 5, 10, 1, every spud year 1999 ≤ start year 2000. -/
def cfgC1 : Cfg := ⟨[(10, projPeak5), (11, projPeak10), (12, projPeak1)], 3, 0, 2000, 0, -1, lrect⟩

/-- A single project whose spud year 2001 exceeds the start year 2000,
so that no candidate ever satisfies `spud < first_year`. -/
def projLate : Project := ⟨2001, 1, [5], [0, 2], fun _ => 5⟩

/-- Failing input for the random first-project search: only `projLate`. -/
def cfgC4 : Cfg := ⟨[(10, projLate)], 3, 0, 2000, 0, -1, lrect⟩

/-- Failing input for the random next-project search: one unused project
that would be feasible in year 2000. -/
def cfgC7 : Cfg := ⟨[(10, projPeak5)], 3, 0, 2000, 0, -1, lrect⟩

/-- C1: with peaks `[5, 10, 1]` (all projects feasible), the `minmax`
first-project search returns project 10, whose peak is 5, although
project 11 has the highest peak 10 and also satisfies the spud-year
requirement.  The double indexing
`order_projects_names_abs[max_project_prod_sort[n]]` walks the catalog
in an order unrelated to the peak ranking, so the selected project is
not the feasible project of highest peak. -/
theorem minmax_first_not_highest_peak :
    search_first_minmax cfgC1 = some 10 ∧
    (projOf cfgC1 10).map (fun p => p.profile.headD 0) = some 5 ∧
    (projOf cfgC1 11).map (fun p => p.profile.headD 0) = some 10 ∧
    (projOf cfgC1 11).map Project.spud = some 1999 ∧
    cfgC1.firstYear = 2000 := by
  decide

/-- C4: on a catalog whose only project has spud year 2001 > 2000, the
random branch of `search_first_project` accepts no draw after any number
of iterations and for any random stream: the unbounded `while not found`
loop never terminates, and no `InfeasibleSelectionError` is raised
(none exists in the source). -/
theorem first_random_never_accepts (fuel : ℕ) (choice : ℕ → ℕ) :
    first_random_loop cfgC4 choice fuel = none := by
  induction fuel with
  | zero => rfl
  | succ n ih =>
    simp [first_random_loop, Nat.mod_one, cfgC4, namesOf, projOf, projLate]
    exact ih

/-- C7: under the `random` next-project policy, with an unused feasible
project available, the selection raises `NameError` on the first loop
iteration for every random stream — the comparison reads the unbound
variable `year` — so it never accepts a project by comparing its spud
year with the current calendar year. -/
theorem next_random_raises_name_error (fuel : ℕ) (choice : ℕ → ℕ) :
    search_next_random cfgC7 [] choice (fuel + 1) = .error .nameError := by
  simp [search_next_random, left_projects, next_random_loop, Nat.mod_one,
    yearVarLookup, cfgC7, namesOf]

/-- Project A of the deterministic-ordering scenario: spud 1998, drill
2, total production 100 (constant curve 50 over two years). -/
def projEarlyA : Project := ⟨1998, 2, [50, 50], [0, 2], fun _ => 50⟩

/-- Project B of the deterministic-ordering scenario: spud 1998, drill
1, total production 50. -/
def projEarlyB : Project := ⟨1998, 1, [25, 25], [0, 2], fun _ => 25⟩

/-- The two-project all-early catalog of the ordering scenario, start
year 2000.  Catalog positions: A = 0, B = 1. -/
def cfgC2 : Cfg := ⟨[(10, projEarlyA), (11, projEarlyB)], 3, 0, 2000, 0, -1, lrect⟩

/-- A project with a two-year operation window. -/
def projC5 : Project := ⟨2000, 1, [7, 7], [0, 2], fun _ => 7⟩

/-- Configuration with a collapsed operation window:
`min_year == max_year == 0`. -/
def cfgC5 : Cfg := ⟨[(10, projC5)], 3, 0, 2000, 0, 0, lrect⟩

/-- Catalog with one early and one late project, on which the full run
completes: A (spud 1998, drill 2, effective `[4, 3]`) and B (spud 2000,
drill 1, effective `[5, 5]`), period 3. -/
def projRunA : Project := ⟨1998, 2, [4, 3], [0, 2], fun x => 4 - x⟩

/-- The late project of the full-run witness catalog. -/
def projRunB : Project := ⟨2000, 1, [5, 5], [0, 2], fun _ => 5⟩

/-- Full-run witness configuration. -/
def cfgC6 : Cfg := ⟨[(10, projRunA), (11, projRunB)], 3, 0, 2000, 0, -1, lrect⟩

/-- Catalog for the C3 witness: one project whose effective production
has length 2. -/
def cfgC3 : Cfg := ⟨[(10, projPeak5)], 3, 0, 2000, 0, -1, lrect⟩

/-- Catalog for the C8 witness. -/
def cfgC8 : Cfg := ⟨[(10, projPeak5)], 3, 0, 2000, 0, -1, lrect⟩

/-- Catalog for the C10 witness. -/
def cfgC10 : Cfg := ⟨[(10, projPeak5), (11, projPeak10)], 3, 0, 2000, 0, -1, lrect⟩

/-- A planner state in which project 11 is already used. -/
def stateC10 : State := ⟨[11], [(11, 0)], [(-1, 11)], 0⟩

/-- C3: an active `(project, start_day)` pair is removed by
`update_simulatenous_projects(day)` exactly when
`day - start_day == len(effective)`: it survives one update step iff the
equality fails, and it survives the updates of the consecutive days
`start_day, start_day + 1, ..., start_day + k - 1` (as the simulation
performs them) iff `k ≤ len(effective)` — so it is present through day
`start_day + len - 1` and gone from day `start_day + len` on, never
removed earlier and never present later. -/
theorem active_removed_exactly_when_exhausted
    (cfg : Cfg) (active out out2 : List (PName × ℤ)) (nm : PName) (s day : ℤ)
    (k : ℕ) (eff : List ℤ)
    (hall : ∀ q ∈ active, (effOf cfg q.1).isSome)
    (heff : effOf cfg nm = some eff)
    (hmem : (nm, s) ∈ active)
    (hupd : update_simulatenous cfg day active = some out)
    (hiter : iter_update cfg s k active = some out2) :
    ((nm, s) ∈ out ↔ day - s ≠ (eff.length : ℤ)) ∧
    ((nm, s) ∈ out2 ↔ (k : ℤ) ≤ (eff.length : ℤ)) := by
  have hexh : ∀ d : ℤ, curveExhausted cfg d (nm, s)
      = decide (d - s = (eff.length : ℤ)) := by
    intro d
    simp [curveExhausted, heff]
  constructor
  · rw [update_simulatenous_eq_filter cfg day active hall] at hupd
    have hout : out = active.filter (fun q => !(curveExhausted cfg day q)) :=
      (Option.some.inj hupd).symm
    subst hout
    rw [List.mem_filter]
    simp [hmem, hexh]
  · rw [mem_iter_update cfg k s active out2 (nm, s) hall hiter]
    simp only [hmem, true_and]
    constructor
    · intro hj
      by_contra hlt
      push_neg at hlt
      have hklen : eff.length < k := by exact_mod_cast hlt
      have hcontra := hj eff.length hklen
      rw [hexh] at hcontra
      simp at hcontra
    · intro hk j hj
      rw [hexh]
      simp only [decide_eq_false_iff_not]
      intro habs
      have hjlen : (j : ℤ) = (eff.length : ℤ) := by omega
      have : j = eff.length := by exact_mod_cast hjlen
      omega

/-- C3 witness: with effective production `[5, 5]` of length 2 and the
pair `(10, 0)` active, the update of day 2 removes it, and so do three
consecutive updates starting at day 0. -/
theorem active_removed_exactly_when_exhausted_witness :
    ((((10 : PName), (0 : ℤ)) ∈ ([] : List (PName × ℤ))
        ↔ (2 : ℤ) - 0 ≠ (([5, 5] : List ℤ).length : ℤ)) ∧
     (((10 : PName), (0 : ℤ)) ∈ ([] : List (PName × ℤ))
        ↔ ((3 : ℕ) : ℤ) ≤ (([5, 5] : List ℤ).length : ℤ))) :=
  active_removed_exactly_when_exhausted cfgC3 [(10, 0)] [] [] 10 0 2 3 [5, 5]
    (by decide) (by decide) (by decide) (by decide) (by decide)

/-- C8: in every reachable planner state the `used_projects` list holds
no duplicate project id, and `add_projects` fails (with the
`AssertionError` of `assert project not in self.used_projects`) on any
id already used — so a project is assigned a start day at most once per
run. -/
theorem used_no_duplicates (cfg : Cfg) (s : State) (h : Reach cfg s) :
    s.used.Nodup ∧ ∀ p ∈ s.used, ∀ d : ℤ, ((add_projects cfg [p] d s).2).isSome := by
  have hnd : s.used.Nodup := by
    induction h with
    | init => simp [initState]
    | add s l d hs ih => exact add_projects_used_nodup cfg l d s ih
    | clear s hs ih => simp [clear_projects]
    | remove s idxs hs ih => simpa [remove_projects] using ih
    | update s day a2 hs hupd ih => simpa using ih
  refine ⟨hnd, ?_⟩
  intro p hp d
  simp [add_projects, hp]

/-- C8 witness: the state reached by adding project 10 to the fresh
planner has duplicate-free `used`, and re-adding any used id fails. -/
theorem used_no_duplicates_witness :
    (add_projects cfgC8 [10] 0 initState).1.used.Nodup ∧
      ∀ p ∈ (add_projects cfgC8 [10] 0 initState).1.used, ∀ d : ℤ,
        ((add_projects cfgC8 [p] d (add_projects cfgC8 [10] 0 initState).1).2).isSome :=
  used_no_duplicates cfgC8 _ (Reach.add initState [10] 0 Reach.init)

/-- C9: `clear_projects` resets exactly `used_projects`,
`active_projects` and `projects_first_day` (the latter two forming
`active`); `projects_time_sequence` and the alternation counter
`self.call` are left unchanged. -/
theorem clear_projects_frame (s : State) :
    clear_projects s
      = { used := [], active := [], timeSeq := s.timeSeq, callCnt := s.callCnt } :=
  rfl

/-- C10: `add_projects` is not atomic.  If every id of the prefix `l1`
is fresh but the next id `p` is already used (either initially or
because it occurs in `l1`), the call fails with `AssertionError` and
leaves behind the prefix fully inserted: `used`, `active` and the
execution log `projects_time_sequence` all keep the entries of `l1`. -/
theorem add_projects_partial_on_error (cfg : Cfg) (l1 : List PName) (p : PName)
    (l2 : List PName) (d : ℤ) (s : State)
    (h1 : ∀ q ∈ l1, q ∉ s.used) (h2 : l1.Nodup)
    (h3 : ∀ q ∈ l1, (projOf cfg q).isSome)
    (hp : p ∈ s.used ++ l1) :
    add_projects cfg (l1 ++ p :: l2) d s =
      ({ used := s.used ++ l1,
         active := s.active ++ l1.map (fun q => (q, d)),
         timeSeq := s.timeSeq ++ l1.map (fun q =>
           (cfg.firstDay + d - ((projOf cfg q).map Project.drill).getD 0, q)),
         callCnt := s.callCnt }, some .assertionError) := by
  induction l1 generalizing s with
  | nil =>
    have hp2 : p ∈ s.used := by simpa using hp
    simp [add_projects, hp2]
  | cons q l1 ih =>
    have hq : q ∉ s.used := h1 q (by simp)
    rcases Option.isSome_iff_exists.mp (h3 q (by simp)) with ⟨pr, hpr⟩
    simp only [List.cons_append, add_projects, if_neg hq, add_project_sequence, hpr]
    simp only [List.append_eq]
    rw [ih _
      (by
        intro x hx
        simp only [List.mem_append, List.mem_singleton]
        rintro (hxs | rfl)
        · exact h1 x (by simp [hx]) hxs
        · exact (List.nodup_cons.mp h2).1 hx)
      (List.nodup_cons.mp h2).2
      (fun x hx => h3 x (by simp [hx]))
      (by
        simp only [List.append_assoc, List.singleton_append]
        simpa using hp)]
    simp [hpr, List.append_assoc]

/-- C10 witness: with project 11 already used, adding `[10, 11]` fails
at 11 but leaves 10 inserted in `used`, `active` and the log. -/
theorem add_projects_partial_on_error_witness :
    add_projects cfgC10 ([10] ++ 11 :: []) 0 stateC10 =
      ({ used := stateC10.used ++ [10],
         active := stateC10.active ++ [(10, 0)].map (fun q => (q.1, (0 : ℤ))),
         timeSeq := stateC10.timeSeq ++ [10].map (fun q =>
           ((cfgC10.firstDay + 0 - ((projOf cfgC10 q).map Project.drill).getD 0 : ℤ), q)),
         callCnt := stateC10.callCnt }, some .assertionError) :=
  add_projects_partial_on_error cfgC10 [10] 11 [] 0 stateC10
    (by decide) (by decide) (by decide) (by decide)

/-- C2: on the ordering scenario catalog (A: spud 1998, drill 2, total
100; B: spud 1998, drill 1, total 50; start year 2000) the early half of
`projects_ordering` computes exactly `[(-2, A), (-1, B)]` — each early
project gets offset `-(drill_duration)` — but `projects_ordering` as a
whole raises `ValueError` (`np.hstack` of the empty late-project group)
before `planned_sequence` is ever assigned, because no project has
`spud_year ≥ 2000`. -/
theorem projects_ordering_crashes_without_late_group :
    seq_before cfgC2 = some [(-2, 0), (-1, 1)] ∧
    seq_after cfgC2 = none ∧
    projects_ordering cfgC2 = none := by
  decide

/-- C5 counterexample: with a collapsed operation window
(`min_year == max_year == 0`) the total-production computation does not
fail — it succeeds and returns 0, the integral over the zero-length
interval. -/
theorem proj_total_collapsed_no_failure :
    cfgC5.minYear = cfgC5.maxYear ∧ proj_total cfgC5 projC5 = some 0 := by
  decide

/-- C5 (amended): for every project and every integrator that — like
`scipy.integrate.quad` — returns 0 on a zero-length interval, a
collapsed operation window (`min_year = max_year`, with the index in
range) makes `projects_total_prod` succeed with total production 0; no
error is raised. -/
theorem proj_total_collapsed_window (cfg : Cfg) (p : Project) (y : ℤ)
    (hw : cfg.minYear = cfg.maxYear)
    (hI : ∀ f a, cfg.integrator f a a = 0)
    (hy : pyIdx p.years cfg.minYear = some y) :
    proj_total cfg p = some 0 := by
  have hy2 : pyIdx p.years cfg.maxYear = some y := hw ▸ hy
  simp [proj_total, hy, hy2, hI]

/-- C5 witness: the amended statement at the collapsed-window
configuration with the left rectangle rule. -/
theorem proj_total_collapsed_window_witness :
    proj_total cfgC5 projC5 = some 0 :=
  proj_total_collapsed_window cfgC5 projC5 0 rfl
    (fun f a => by show lrect f a a = 0; simp [lrect]) (by decide)

/-- Each iteration of the daily loop of `__call__` appends exactly one
production value, so the loop output has one entry per simulated day. -/
theorem run_loop_length (cfg : Cfg) (seq : List (ℤ × ℕ)) (days : List ℤ)
    (n : ℕ) (s : State) (out : List ℤ)
    (h : run_loop cfg seq days n s = some out) : out.length = days.length := by
  induction days generalizing n s out with
  | nil =>
    cases h
    rfl
  | cons day rest ih =>
    rw [run_loop] at h
    rcases Option.bind_eq_some.mp h with ⟨⟨n2, s2⟩, hstep, h2⟩
    rcases Option.bind_eq_some.mp h2 with ⟨⟨p, s4⟩, hprod, h3⟩
    rcases Option.bind_eq_some.mp h3 with ⟨ps, hrec, hout⟩
    cases hout
    simp [ih n2 s4 ps hrec]

/-- C6: every full run that completes without an exception returns one
daily production total per simulated day: the output of
`planner_run` has length `period` (the constructor itself rules out
`period = 0`, dividing by `period` for the global mean). -/
theorem planner_run_length (cfg : Cfg) (out : List ℤ)
    (hper : 1 ≤ cfg.period)
    (h : planner_run cfg = some out) :
    out.length = cfg.period := by
  rw [planner_run] at h
  rcases Option.bind_eq_some.mp h with ⟨seq, hseq, h2⟩
  rcases Option.bind_eq_some.mp h2 with ⟨⟨n0, s0⟩, hinit, h3⟩
  rcases Option.bind_eq_some.mp h3 with ⟨⟨p0, s1⟩, hprod, h4⟩
  rcases Option.bind_eq_some.mp h4 with ⟨ps, hloop, hout⟩
  cases hout
  have hl := run_loop_length cfg seq _ n0 s1 ps hloop
  simp only [List.length_map, List.length_drop, List.length_range] at hl
  simp only [List.length_cons, hl]
  omega

/-- C6 witness: the full run on the two-project catalog completes with
the production sequence `[4, 8, 5]` of length `period = 3`. -/
theorem planner_run_length_witness :
    planner_run cfgC6 = some [4, 8, 5] ∧ ([4, 8, 5] : List ℤ).length = cfgC6.period :=
  ⟨by decide, planner_run_length cfgC6 [4, 8, 5] (by decide) (by decide)⟩

end PlanningModel
